import Mathlib

/-!
Verification of the immutable todo-collection engine of MyriadColors/todo-app.

The engine lives in `src/models/TodoManager.ts` (class `TodoManager`) with the
record type in `src/Types.ts` and the persistence collaborator in
`src/services/DatabaseManager.ts`.  The TypeScript code is embedded shallowly:

* `Todo` mirrors the `Todo` interface (`id`, `title`, `description?`,
  `completed`); the optional description is an `Option String`.
* `consolidateIds` mirrors `TodoManager.consolidateIds`
  (`todos.map((todo, index) => ({...todo, id: index + 1}))`), written as a
  structural recursion `consolidateFrom` over the list with the running index.
* `TodoManager.make` mirrors the constructor
  (`constructor(todos = [], nextId = 1)`): it consolidates the ids and stores
  `nextId`; `makeDefault` is the constructor with `nextId` left to its
  default `1`.
* `addTodo`, `markCompleted`, `removeTodo`, `updateTodo` mirror the methods of
  the class; `findIndex` followed by a slice-splice replacement (or removal) of
  the element at the found index is embedded as a structural recursion that
  replaces (or removes) the first element whose `id` matches.
* TypeScript `Result<T, string>` becomes `Except String T`.
-/

structure Todo where
  id : Nat
  title : String
  description : Option String
  completed : Bool
deriving DecidableEq, Repr

/-- `[start, start+1, ..., start+len-1]`: the id sequence a dense collection
carries.  Used to state the dense-id invariant I1. -/
def idsFrom : Nat → Nat → List Nat
  | _, 0 => []
  | s, n + 1 => s :: idsFrom (s + 1) n

/-- The body of `TodoManager.consolidateIds`, with the running index made an
explicit first argument: element at offset `k` from the start gets id
`i + k + 1`. -/
def consolidateFrom : Nat → List Todo → List Todo
  | _, [] => []
  | i, t :: ts => Todo.mk (i + 1) t.title t.description t.completed :: consolidateFrom (i + 1) ts

/-- `TodoManager.consolidateIds`: every record's id is re-derived from its
position (index + 1). -/
def consolidateIds (todos : List Todo) : List Todo :=
  consolidateFrom 0 todos

structure TodoManager where
  todos : List Todo
  nextId : Nat
deriving DecidableEq, Repr

/-- The `TodoManager` constructor: `this.todos = TodoManager.consolidateIds(todos);
this.nextId = nextId`. -/
def TodoManager.make (todos : List Todo) (nextId : Nat) : TodoManager :=
  TodoManager.mk (consolidateIds todos) nextId

/-- The constructor with `nextId` left to its declared default, `1`
(`constructor(todos = [], nextId = 1)`), as in `new TodoManager(newTodos)`. -/
def TodoManager.makeDefault (todos : List Todo) : TodoManager :=
  TodoManager.make todos 1

/-- `TodoManager.addTodo`: build `{id: this.nextId, title, description,
completed: false}`, append it, and return
`new TodoManager([...this.todos, newTodo], this.nextId + 1)`. -/
def TodoManager.addTodo (m : TodoManager) (title : String) (description : Option String) :
    TodoManager :=
  TodoManager.make (m.todos ++ [Todo.mk m.nextId title description false]) (m.nextId + 1)

/-- `findIndex` on `id` followed by the splice in `markCompleted`: replace the
first record whose id matches (erroring if it is already completed), error
`"Todo not found"` when none matches. -/
def markCompletedList : List Todo → Nat → Except String (List Todo)
  | [], _ => .error "Todo not found"
  | t :: ts, id =>
    if t.id = id then
      if t.completed then .error "Todo already completed"
      else .ok (Todo.mk t.id t.title t.description true :: ts)
    else
      match markCompletedList ts id with
      | .error e => .error e
      | .ok ts' => .ok (t :: ts')

/-- `TodoManager.markCompleted`: on success returns
`new TodoManager(newTodos, this.nextId)`. -/
def TodoManager.markCompleted (m : TodoManager) (id : Nat) : Except String TodoManager :=
  match markCompletedList m.todos id with
  | .error e => .error e
  | .ok newTodos => .ok (TodoManager.make newTodos m.nextId)

/-- `findIndex` on `id` followed by the two slices in `removeTodo`: drop the
first record whose id matches; `none` when no record matches. -/
def removeTodoList : List Todo → Nat → Option (List Todo)
  | [], _ => none
  | t :: ts, id =>
    if t.id = id then some ts
    else (removeTodoList ts id).map (fun r => t :: r)

/-- `Math.max(...todos.map(todo => todo.id))` over a non-empty list (the code
guards the empty case separately, so the fold's base `0` is never the result). -/
def maxId (todos : List Todo) : Nat :=
  (todos.map Todo.id).foldl max 0

/-- `TodoManager.removeTodo`: remove the record, renumber the remainder
(`map((todo, i) => ({...todo, id: i + 1}))`), recompute
`newNextId = renumbered.length > 0 ? Math.max(...ids) + 1 : 1`, and return
`new TodoManager(renumberedTodos, newNextId)`. -/
def TodoManager.removeTodo (m : TodoManager) (id : Nat) : Except String TodoManager :=
  match removeTodoList m.todos id with
  | none => .error "Todo not found"
  | some remaining =>
    let renumbered := consolidateIds remaining
    let newNextId := if 0 < renumbered.length then maxId renumbered + 1 else 1
    .ok (TodoManager.make renumbered newNextId)

/-- The `newData` argument of `updateTodo`, of type `Omit<Partial<Todo>, 'id'>`:
each of `title`, `description`, `completed` may be present (overwriting) or
absent (retaining the prior value); `id` is excluded by the type. -/
structure TodoPatch where
  title : Option String
  description : Option (Option String)
  completed : Option Bool
deriving DecidableEq, Repr

/-- The empty patch `{}`. -/
def TodoPatch.empty : TodoPatch :=
  TodoPatch.mk none none none

/-- The spread merge `{...oldTodo, ...newData}`: a field present in the patch
overwrites, an absent field keeps the old value; `id` is kept. -/
def applyPatch (t : Todo) (p : TodoPatch) : Todo :=
  Todo.mk t.id (p.title.getD t.title) (p.description.getD t.description)
    (p.completed.getD t.completed)

/-- `findIndex` on `id` followed by the splice in `updateTodo`: merge the patch
into the first record whose id matches, error `"Todo not found"` otherwise. -/
def updateTodoList : List Todo → Nat → TodoPatch → Except String (List Todo)
  | [], _, _ => .error "Todo not found"
  | t :: ts, id, p =>
    if t.id = id then .ok (applyPatch t p :: ts)
    else
      match updateTodoList ts id p with
      | .error e => .error e
      | .ok ts' => .ok (t :: ts')

/-- `TodoManager.updateTodo`: on success returns `new TodoManager(newTodos)` —
the constructor's `nextId` argument is omitted, so it takes its default `1`. -/
def TodoManager.updateTodo (m : TodoManager) (id : Nat) (p : TodoPatch) :
    Except String TodoManager :=
  match updateTodoList m.todos id p with
  | .error e => .error e
  | .ok newTodos => .ok (TodoManager.makeDefault newTodos)

/-- The engine operations a caller can issue on an existing collection. -/
inductive Op where
  | add (title : String) (description : Option String)
  | update (id : Nat) (p : TodoPatch)
  | complete (id : Nat)
  | remove (id : Nat)
deriving DecidableEq, Repr

/-- One dispatcher step: on an engine error the caller retains the prior
collection (the engine returned no new one). -/
def applyOp (m : TodoManager) : Op → TodoManager
  | .add t d => m.addTodo t d
  | .update i p =>
    match m.updateTodo i p with
    | .ok m' => m'
    | .error _ => m
  | .complete i =>
    match m.markCompleted i with
    | .ok m' => m'
    | .error _ => m
  | .remove i =>
    match m.removeTodo i with
    | .ok m' => m'
    | .error _ => m

/-- Run a sequence of engine operations from an initial collection. -/
def runOps (init : TodoManager) (ops : List Op) : TodoManager :=
  ops.foldl applyOp init

deriving instance DecidableEq for Except

/-- Invariant I1: the ids read in sequence order are exactly `1, 2, ..., N`
(dense, contiguous, id = position + 1). -/
def DenseIds (todos : List Todo) : Prop :=
  todos.map Todo.id = idsFrom 1 todos.length

instance (todos : List Todo) : Decidable (DenseIds todos) := by
  unfold DenseIds
  infer_instance

-- Basic lemmas about `idsFrom` and `consolidateFrom`.

theorem idsFrom_length (s n : Nat) : (idsFrom s n).length = n := by
  induction n generalizing s with
  | zero => rfl
  | succ k ih => simp [idsFrom, ih]

theorem mem_idsFrom (x s n : Nat) : x ∈ idsFrom s n ↔ s ≤ x ∧ x < s + n := by
  induction n generalizing s with
  | zero => simp [idsFrom]
  | succ k ih =>
    simp only [idsFrom, List.mem_cons, ih]
    omega

theorem idsFrom_nodup (s n : Nat) : (idsFrom s n).Nodup := by
  induction n generalizing s with
  | zero => simp [idsFrom]
  | succ k ih =>
    simp only [idsFrom, List.nodup_cons]
    exact ⟨fun h => by have := (mem_idsFrom s (s + 1) k).mp h; omega, ih (s + 1)⟩

theorem consolidateFrom_length (i : Nat) (l : List Todo) :
    (consolidateFrom i l).length = l.length := by
  induction l generalizing i with
  | nil => rfl
  | cons t ts ih => simp [consolidateFrom, ih]

theorem consolidateFrom_map_id (i : Nat) (l : List Todo) :
    (consolidateFrom i l).map Todo.id = idsFrom (i + 1) l.length := by
  induction l generalizing i with
  | nil => rfl
  | cons t ts ih => simp [consolidateFrom, idsFrom, ih]

theorem consolidateFrom_get? (i k : Nat) (l : List Todo) :
    (consolidateFrom i l).get? k =
      (l.get? k).map (fun t => Todo.mk (i + k + 1) t.title t.description t.completed) := by
  induction l generalizing i k with
  | nil => simp [consolidateFrom]
  | cons t ts ih =>
    cases k with
    | zero => simp [consolidateFrom]
    | succ k' =>
      simp only [consolidateFrom, List.get?_cons_succ, ih (i + 1) k']
      have : i + 1 + k' + 1 = i + (k' + 1) + 1 := by omega
      rw [this]

theorem consolidateFrom_map_title (i : Nat) (l : List Todo) :
    (consolidateFrom i l).map Todo.title = l.map Todo.title := by
  induction l generalizing i with
  | nil => rfl
  | cons t ts ih => simp [consolidateFrom, ih]

theorem consolidateFrom_map_description (i : Nat) (l : List Todo) :
    (consolidateFrom i l).map Todo.description = l.map Todo.description := by
  induction l generalizing i with
  | nil => rfl
  | cons t ts ih => simp [consolidateFrom, ih]

theorem consolidateFrom_map_completed (i : Nat) (l : List Todo) :
    (consolidateFrom i l).map Todo.completed = l.map Todo.completed := by
  induction l generalizing i with
  | nil => rfl
  | cons t ts ih => simp [consolidateFrom, ih]

theorem consolidateFrom_eq_self (i : Nat) (l : List Todo)
    (h : l.map Todo.id = idsFrom (i + 1) l.length) : consolidateFrom i l = l := by
  induction l generalizing i with
  | nil => rfl
  | cons t ts ih =>
    simp only [List.map_cons, List.length_cons, idsFrom, List.cons.injEq] at h
    simp only [consolidateFrom, List.cons.injEq]
    constructor
    · cases t
      simp_all
    · exact ih (i + 1) h.2

theorem consolidateFrom_append (i : Nat) (l r : List Todo) :
    consolidateFrom i (l ++ r) = consolidateFrom i l ++ consolidateFrom (i + l.length) r := by
  induction l generalizing i with
  | nil => simp [consolidateFrom]
  | cons t ts ih =>
    have hlen : i + 1 + ts.length = i + (ts.length + 1) := by omega
    show consolidateFrom i (t :: (ts ++ r)) = _
    rw [consolidateFrom, ih (i + 1), hlen]
    rfl

theorem make_todos_map_id (todos : List Todo) (n : Nat) :
    (TodoManager.make todos n).todos.map Todo.id = idsFrom 1 todos.length :=
  consolidateFrom_map_id 0 todos

theorem make_todos_length (todos : List Todo) (n : Nat) :
    (TodoManager.make todos n).todos.length = todos.length :=
  consolidateFrom_length 0 todos

theorem make_dense (todos : List Todo) (n : Nat) : DenseIds (TodoManager.make todos n).todos := by
  unfold DenseIds
  rw [make_todos_length, make_todos_map_id]

theorem dense_consolidate_eq_self (l : List Todo) (h : DenseIds l) : consolidateIds l = l :=
  consolidateFrom_eq_self 0 l h

theorem consolidateIds_length (l : List Todo) : (consolidateIds l).length = l.length :=
  consolidateFrom_length 0 l

-- Characterizations of the list-level operation bodies.

theorem markCompletedList_notFound_of_no_match (l : List Todo) (id : Nat)
    (h : ∀ t ∈ l, t.id ≠ id) : markCompletedList l id = .error "Todo not found" := by
  induction l with
  | nil => rfl
  | cons t ts ih =>
    have ht : t.id ≠ id := h t (List.mem_cons_self t ts)
    simp only [markCompletedList, if_neg ht]
    rw [ih (fun u hu => h u (List.mem_cons_of_mem t hu))]

theorem markCompletedList_ne_notFound_of_match (l : List Todo) (id : Nat)
    (h : ∃ t ∈ l, t.id = id) : markCompletedList l id ≠ .error "Todo not found" := by
  induction l with
  | nil => simp at h
  | cons t ts ih =>
    by_cases ht : t.id = id
    · by_cases hc : t.completed
      · simp [markCompletedList, ht, hc]
      · simp [markCompletedList, ht, hc]
    · obtain ⟨u, hu, hid⟩ := h
      rcases List.mem_cons.mp hu with rfl | hu'
      · exact absurd hid ht
      · simp only [markCompletedList, if_neg ht]
        cases hrec : markCompletedList ts id with
        | error e =>
          intro hcontra
          have : e = "Todo not found" := by
            injection hcontra
          subst this
          exact ih ⟨u, hu', hid⟩ hrec
        | ok ts' => simp

theorem markCompletedList_notFound_iff (l : List Todo) (id : Nat) :
    markCompletedList l id = .error "Todo not found" ↔ ∀ t ∈ l, t.id ≠ id := by
  constructor
  · intro h
    by_contra hc
    push_neg at hc
    obtain ⟨t, ht, hid⟩ := hc
    exact markCompletedList_ne_notFound_of_match l id ⟨t, ht, hid⟩ h
  · exact markCompletedList_notFound_of_no_match l id

theorem markCompletedList_already_of (l : List Todo) (id : Nat)
    (h : markCompletedList l id = .error "Todo already completed") :
    ∃ t ∈ l, t.id = id ∧ t.completed = true := by
  induction l with
  | nil => simp [markCompletedList] at h
  | cons t ts ih =>
    by_cases ht : t.id = id
    · by_cases hc : t.completed
      · exact ⟨t, List.mem_cons_self t ts, ht, hc⟩
      · simp [markCompletedList, ht, hc] at h
    · simp only [markCompletedList, if_neg ht] at h
      cases hrec : markCompletedList ts id with
      | error e =>
        rw [hrec] at h
        have : e = "Todo already completed" := by injection h
        subst this
        obtain ⟨u, hu, h1, h2⟩ := ih hrec
        exact ⟨u, List.mem_cons_of_mem t hu, h1, h2⟩
      | ok ts' => rw [hrec] at h; simp at h

theorem markCompletedList_already_of_match (l : List Todo) (id : Nat)
    (hnd : (l.map Todo.id).Nodup) (h : ∃ t ∈ l, t.id = id ∧ t.completed = true) :
    markCompletedList l id = .error "Todo already completed" := by
  induction l with
  | nil => simp at h
  | cons t ts ih =>
    simp only [List.map_cons, List.nodup_cons] at hnd
    obtain ⟨u, hu, huid, huc⟩ := h
    by_cases ht : t.id = id
    · have hut : u = t := by
        rcases List.mem_cons.mp hu with rfl | hu'
        · rfl
        · exact absurd (List.mem_map_of_mem Todo.id hu') (by rw [huid, ← ht] at *; exact hnd.1)
      subst hut
      simp [markCompletedList, ht, huc]
    · have hu' : u ∈ ts := by
        rcases List.mem_cons.mp hu with rfl | hu'
        · exact absurd huid ht
        · exact hu'
      simp only [markCompletedList, if_neg ht]
      rw [ih hnd.2 ⟨u, hu', huid, huc⟩]

theorem markCompletedList_ok_of_pending (l : List Todo) (id : Nat)
    (hnd : (l.map Todo.id).Nodup) (h : ∃ t ∈ l, t.id = id ∧ t.completed = false) :
    ∃ l', markCompletedList l id = .ok l' := by
  induction l with
  | nil => simp at h
  | cons t ts ih =>
    simp only [List.map_cons, List.nodup_cons] at hnd
    obtain ⟨u, hu, huid, huc⟩ := h
    by_cases ht : t.id = id
    · have hut : u = t := by
        rcases List.mem_cons.mp hu with rfl | hu'
        · rfl
        · exact absurd (List.mem_map_of_mem Todo.id hu') (by rw [huid, ← ht] at *; exact hnd.1)
      subst hut
      have hc : ¬u.completed = true := by rw [huc]; simp
      refine ⟨Todo.mk u.id u.title u.description true :: ts, ?_⟩
      simp [markCompletedList, ht, hc]
    · have hu' : u ∈ ts := by
        rcases List.mem_cons.mp hu with rfl | hu'
        · exact absurd huid ht
        · exact hu'
      obtain ⟨l', hl'⟩ := ih hnd.2 ⟨u, hu', huid, huc⟩
      exact ⟨t :: l', by simp only [markCompletedList, if_neg ht, hl']⟩

theorem markCompletedList_ok_spec (l : List Todo) (id : Nat) (l' : List Todo)
    (h : markCompletedList l id = .ok l') :
    l'.length = l.length ∧
      ∃ j t, l.get? j = some t ∧ t.id = id ∧ t.completed = false ∧
        l'.get? j = some (Todo.mk t.id t.title t.description true) ∧
        ∀ k, k ≠ j → l'.get? k = l.get? k := by
  induction l generalizing l' with
  | nil => simp [markCompletedList] at h
  | cons t ts ih =>
    by_cases ht : t.id = id
    · by_cases hc : t.completed
      · simp [markCompletedList, ht, hc] at h
      · simp only [markCompletedList, if_pos ht, if_neg hc, Except.ok.injEq] at h
        subst h
        refine ⟨by simp, 0, t, rfl, ht, by simp [hc], rfl, ?_⟩
        intro k hk
        cases k with
        | zero => exact absurd rfl hk
        | succ k' => simp
    · simp only [markCompletedList, if_neg ht] at h
      cases hrec : markCompletedList ts id with
      | error e => rw [hrec] at h; simp at h
      | ok ts' =>
        rw [hrec] at h
        simp only [Except.ok.injEq] at h
        subst h
        obtain ⟨hlen, j, u, hget, hid, hcomp, hget', hframe⟩ := ih ts' hrec
        refine ⟨by simp [hlen], j + 1, u, hget, hid, hcomp, hget', ?_⟩
        intro k hk
        cases k with
        | zero => rfl
        | succ k' => exact hframe k' (fun hkj => hk (by rw [hkj]))

theorem markCompletedList_map_id (l : List Todo) (id : Nat) (l' : List Todo)
    (h : markCompletedList l id = .ok l') : l'.map Todo.id = l.map Todo.id := by
  induction l generalizing l' with
  | nil => simp [markCompletedList] at h
  | cons t ts ih =>
    by_cases ht : t.id = id
    · by_cases hc : t.completed
      · simp [markCompletedList, ht, hc] at h
      · simp only [markCompletedList, if_pos ht, if_neg hc, Except.ok.injEq] at h
        subst h
        simp
    · simp only [markCompletedList, if_neg ht] at h
      cases hrec : markCompletedList ts id with
      | error e => rw [hrec] at h; simp at h
      | ok ts' =>
        rw [hrec] at h
        simp only [Except.ok.injEq] at h
        subst h
        simp [ih ts' hrec]

theorem updateTodoList_notFound_iff (l : List Todo) (id : Nat) (p : TodoPatch) :
    updateTodoList l id p = .error "Todo not found" ↔ ∀ t ∈ l, t.id ≠ id := by
  induction l with
  | nil => simp [updateTodoList]
  | cons t ts ih =>
    by_cases ht : t.id = id
    · simp [updateTodoList, ht]
    · simp only [updateTodoList, if_neg ht]
      cases hrec : updateTodoList ts id p with
      | error e =>
        have he : e = "Todo not found" ∨ updateTodoList ts id p ≠ .error "Todo not found" := by
          by_cases h : e = "Todo not found"
          · exact Or.inl h
          · exact Or.inr (by rw [hrec]; intro hcon; exact h (by injection hcon))
        constructor
        · intro hcontra u hu
          rcases List.mem_cons.mp hu with rfl | hu'
          · exact ht
          · have : updateTodoList ts id p = .error "Todo not found" := by
              rw [hrec]; injection hcontra with h1; rw [h1]
            exact (ih.mp this) u hu'
        · intro hall
          have : updateTodoList ts id p = .error "Todo not found" :=
            ih.mpr (fun u hu => hall u (List.mem_cons_of_mem t hu))
          rw [hrec] at this
          exact this
      | ok ts' =>
        constructor
        · intro hcontra; exact absurd hcontra (by simp)
        · intro hall
          have : updateTodoList ts id p = .error "Todo not found" :=
            ih.mpr (fun u hu => hall u (List.mem_cons_of_mem t hu))
          rw [hrec] at this
          exact absurd this (by simp)

theorem updateTodoList_ok_of_match (l : List Todo) (id : Nat) (p : TodoPatch)
    (h : ∃ t ∈ l, t.id = id) : ∃ l', updateTodoList l id p = .ok l' := by
  induction l with
  | nil => simp at h
  | cons t ts ih =>
    by_cases ht : t.id = id
    · exact ⟨applyPatch t p :: ts, by simp [updateTodoList, ht]⟩
    · obtain ⟨u, hu, huid⟩ := h
      rcases List.mem_cons.mp hu with rfl | hu'
      · exact absurd huid ht
      · obtain ⟨l', hl'⟩ := ih ⟨u, hu', huid⟩
        exact ⟨t :: l', by simp only [updateTodoList, if_neg ht, hl']⟩

theorem updateTodoList_ok_spec (l : List Todo) (id : Nat) (p : TodoPatch) (l' : List Todo)
    (h : updateTodoList l id p = .ok l') :
    l'.length = l.length ∧
      ∃ j t, l.get? j = some t ∧ t.id = id ∧
        l'.get? j = some (applyPatch t p) ∧
        ∀ k, k ≠ j → l'.get? k = l.get? k := by
  induction l generalizing l' with
  | nil => simp [updateTodoList] at h
  | cons t ts ih =>
    by_cases ht : t.id = id
    · simp only [updateTodoList, if_pos ht, Except.ok.injEq] at h
      subst h
      refine ⟨by simp, 0, t, rfl, ht, rfl, ?_⟩
      intro k hk
      cases k with
      | zero => exact absurd rfl hk
      | succ k' => simp
    · simp only [updateTodoList, if_neg ht] at h
      cases hrec : updateTodoList ts id p with
      | error e => rw [hrec] at h; simp at h
      | ok ts' =>
        rw [hrec] at h
        simp only [Except.ok.injEq] at h
        subst h
        obtain ⟨hlen, j, u, hget, hid, hget', hframe⟩ := ih ts' hrec
        refine ⟨by simp [hlen], j + 1, u, hget, hid, hget', ?_⟩
        intro k hk
        cases k with
        | zero => rfl
        | succ k' => exact hframe k' (fun hkj => hk (by rw [hkj]))

theorem updateTodoList_map_id (l : List Todo) (id : Nat) (p : TodoPatch) (l' : List Todo)
    (h : updateTodoList l id p = .ok l') : l'.map Todo.id = l.map Todo.id := by
  induction l generalizing l' with
  | nil => simp [updateTodoList] at h
  | cons t ts ih =>
    by_cases ht : t.id = id
    · simp only [updateTodoList, if_pos ht, Except.ok.injEq] at h
      subst h
      simp [applyPatch]
    · simp only [updateTodoList, if_neg ht] at h
      cases hrec : updateTodoList ts id p with
      | error e => rw [hrec] at h; simp at h
      | ok ts' =>
        rw [hrec] at h
        simp only [Except.ok.injEq] at h
        subst h
        simp [ih ts' hrec]

theorem removeTodoList_none_iff (l : List Todo) (id : Nat) :
    removeTodoList l id = none ↔ ∀ t ∈ l, t.id ≠ id := by
  induction l with
  | nil => simp [removeTodoList]
  | cons t ts ih =>
    by_cases ht : t.id = id
    · simp [removeTodoList, ht]
    · simp only [removeTodoList, if_neg ht]
      cases hrec : removeTodoList ts id with
      | none =>
        simp only [Option.map_none']
        constructor
        · intro _ u hu
          rcases List.mem_cons.mp hu with rfl | hu'
          · exact ht
          · exact (ih.mp hrec) u hu'
        · intro _; trivial
      | some r =>
        simp only [Option.map_some']
        constructor
        · intro hcon; exact absurd hcon (by simp)
        · intro hall
          have : removeTodoList ts id = none :=
            ih.mpr (fun u hu => hall u (List.mem_cons_of_mem t hu))
          rw [hrec] at this
          exact absurd this (by simp)

theorem removeTodoList_some_spec (l : List Todo) (id : Nat) (r : List Todo)
    (h : removeTodoList l id = some r) :
    ∃ j, (l.get? j).map Todo.id = some id ∧ r.length + 1 = l.length ∧
      ∀ k, r.get? k = if k < j then l.get? k else l.get? (k + 1) := by
  induction l generalizing r with
  | nil => simp [removeTodoList] at h
  | cons t ts ih =>
    by_cases ht : t.id = id
    · simp only [removeTodoList, if_pos ht, Option.some.injEq] at h
      subst h
      refine ⟨0, by simp [ht], by simp, ?_⟩
      intro k
      simp
    · simp only [removeTodoList, if_neg ht] at h
      cases hrec : removeTodoList ts id with
      | none => rw [hrec] at h; simp at h
      | some r' =>
        rw [hrec] at h
        simp only [Option.map_some', Option.some.injEq] at h
        subst h
        obtain ⟨j, hid, hlen, hget⟩ := ih r' hrec
        refine ⟨j + 1, hid, by simp [← hlen], ?_⟩
        intro k
        cases k with
        | zero => simp
        | succ k' =>
          have := hget k'
          simp only [List.get?_cons_succ]
          rw [this]
          by_cases hk : k' < j
          · rw [if_pos hk, if_pos (by omega)]
          · rw [if_neg hk, if_neg (by omega)]

/-!
Persistence collaborator (`src/services/DatabaseManager.ts`).  The SQLite table
`todos (id INTEGER PRIMARY KEY, title TEXT, description TEXT, completed BOOLEAN)`
is modelled as an association list of rows kept sorted by the primary key `id`
(`SELECT *` on an INTEGER PRIMARY KEY table yields rows in rowid = id order);
`INSERT OR REPLACE` inserts at the sorted position, replacing the row with an
equal id.  A JS boolean bound as a query parameter is stored as the integer
1 or 0.
-/

structure Row where
  id : Nat
  title : String
  description : String
  completed : Nat
deriving DecidableEq, Repr

/-- The row `toSqlite` inserts for one todo:
`const description = todo.description || ""` stores the empty string both for
an absent and for an empty description; a boolean binds as `1`/`0`. -/
def toRow (t : Todo) : Row :=
  Row.mk t.id t.title (t.description.getD "") (if t.completed then 1 else 0)

/-- `INSERT OR REPLACE INTO todos ... VALUES (?, ?, ?, ?)` on the id-sorted row
list. -/
def insertOrReplace : List Row → Row → List Row
  | [], r => [r]
  | x :: xs, r =>
    if r.id < x.id then r :: x :: xs
    else if r.id = x.id then r :: xs
    else x :: insertOrReplace xs r

/-- `DatabaseManager.toSqlite`: insert every current todo into the store
(`todoManager.getTodos().forEach(todo => ... INSERT OR REPLACE ...)`). -/
def toSqlite (db : List Row) (m : TodoManager) : List Row :=
  m.todos.foldl (fun d t => insertOrReplace d (toRow t)) db

/-- The row-to-record conversion in `fromSqlite`:
`description: row.description || undefined` turns the empty string back into an
absent description, and `completed: !!row.completed` reads any non-zero integer
as `true`. -/
def rowToTodo (r : Row) : Todo :=
  Todo.mk r.id r.title (if r.description = "" then none else some r.description)
    (decide (r.completed ≠ 0))

/-- `DatabaseManager.fromSqlite`: read all rows and return
`new TodoManager(todos)` — the constructor's `nextId` argument is omitted, so
the loaded collection gets the default `nextId = 1`. -/
def fromSqlite (db : List Row) : TodoManager :=
  TodoManager.makeDefault (db.map rowToTodo)

/-- What one record round-trips to: an empty-string description is stored as
`""` and loaded back as absent; everything else is unchanged. -/
def normDesc (d : Option String) : Option String :=
  if d.getD "" = "" then none else d

theorem insertOrReplace_append (db : List Row) (x : Row) (h : ∀ r ∈ db, r.id < x.id) :
    insertOrReplace db x = db ++ [x] := by
  induction db with
  | nil => rfl
  | cons y ys ih =>
    have hy : y.id < x.id := h y (List.mem_cons_self y ys)
    have h1 : ¬ x.id < y.id := by omega
    have h2 : ¬ x.id = y.id := by omega
    simp only [insertOrReplace, if_neg h1, if_neg h2]
    rw [ih (fun r hr => h r (List.mem_cons_of_mem y hr))]
    rfl

theorem foldl_insert_consolidate (todos : List Todo) (i : Nat) (db : List Row)
    (h : ∀ r ∈ db, r.id ≤ i) :
    (consolidateFrom i todos).foldl (fun d t => insertOrReplace d (toRow t)) db
      = db ++ (consolidateFrom i todos).map toRow := by
  induction todos generalizing i db with
  | nil => simp [consolidateFrom]
  | cons t ts ih =>
    simp only [consolidateFrom, List.foldl_cons, List.map_cons]
    have hstep :
        insertOrReplace db (toRow (Todo.mk (i + 1) t.title t.description t.completed))
          = db ++ [toRow (Todo.mk (i + 1) t.title t.description t.completed)] := by
      refine insertOrReplace_append db _ (fun r hr => ?_)
      have := h r hr
      simp only [toRow]
      omega
    rw [hstep, ih (i + 1) _ ?_]
    · simp
    · intro r hr
      rcases List.mem_append.mp hr with hr' | hr'
      · exact le_trans (h r hr') (by omega)
      · simp only [List.mem_singleton] at hr'
        subst hr'
        simp [toRow]

theorem toSqlite_make (todos : List Todo) (n : Nat) :
    toSqlite [] (TodoManager.make todos n) = (TodoManager.make todos n).todos.map toRow := by
  have := foldl_insert_consolidate todos 0 [] (by simp)
  simpa [toSqlite, TodoManager.make, consolidateIds] using this

theorem rowToTodo_toRow (t : Todo) :
    rowToTodo (toRow t) = Todo.mk t.id t.title (normDesc t.description) t.completed := by
  cases t with
  | mk id title description completed =>
    cases description with
    | none =>
      cases completed <;> simp [rowToTodo, toRow, normDesc]
    | some s =>
      by_cases hs : s = ""
      · cases completed <;> simp [rowToTodo, toRow, normDesc, hs]
      · cases completed <;> simp [rowToTodo, toRow, normDesc, hs]

-- Bridging lemmas at the TodoManager level.

theorem todo_eta_id (t : Todo) (i : Nat) (h : t.id = i) :
    Todo.mk i t.title t.description t.completed = t := by
  cases t
  simp_all

theorem foldl_max_idsFrom (n : Nat) : ∀ s a : Nat, (idsFrom s (n + 1)).foldl max a = max a (s + n) := by
  induction n with
  | zero => intro s a; simp [idsFrom]
  | succ k ih =>
    intro s a
    show (idsFrom s (k + 2)).foldl max a = max a (s + (k + 1))
    rw [show idsFrom s (k + 2) = s :: idsFrom (s + 1) (k + 1) from rfl]
    rw [List.foldl_cons, ih (s + 1) (max a s)]
    omega

theorem maxId_consolidate (l : List Todo) (h : 0 < l.length) :
    maxId (consolidateIds l) = l.length := by
  obtain ⟨k, hk⟩ : ∃ k, l.length = k + 1 := ⟨l.length - 1, by omega⟩
  unfold maxId consolidateIds
  rw [consolidateFrom_map_id, hk, foldl_max_idsFrom k 1 0]
  omega

theorem addTodo_todos (m : TodoManager) (h : DenseIds m.todos) (t : String) (d : Option String) :
    (m.addTodo t d).todos = m.todos ++ [Todo.mk (m.todos.length + 1) t d false] := by
  show consolidateIds (m.todos ++ [Todo.mk m.nextId t d false]) = _
  unfold consolidateIds
  rw [consolidateFrom_append, consolidateFrom_eq_self 0 m.todos h]
  simp [consolidateFrom]

theorem addTodo_nextId (m : TodoManager) (t : String) (d : Option String) :
    (m.addTodo t d).nextId = m.nextId + 1 := rfl

theorem addTodo_length (m : TodoManager) (t : String) (d : Option String) :
    (m.addTodo t d).todos.length = m.todos.length + 1 := by
  show (consolidateIds (m.todos ++ [Todo.mk m.nextId t d false])).length = _
  unfold consolidateIds
  rw [consolidateFrom_length]
  simp

theorem updateTodo_ok_shape (m : TodoManager) (i : Nat) (p : TodoPatch) (m' : TodoManager)
    (h : m.updateTodo i p = .ok m') :
    ∃ l', updateTodoList m.todos i p = .ok l' ∧ m' = TodoManager.makeDefault l' := by
  unfold TodoManager.updateTodo at h
  cases hl : updateTodoList m.todos i p with
  | error e => rw [hl] at h; exact absurd h (by simp)
  | ok l' =>
    rw [hl] at h
    simp only [Except.ok.injEq] at h
    exact ⟨l', rfl, h.symm⟩

theorem updateTodo_error_iff (m : TodoManager) (i : Nat) (p : TodoPatch) (e : String) :
    m.updateTodo i p = .error e ↔ updateTodoList m.todos i p = .error e := by
  unfold TodoManager.updateTodo
  cases hl : updateTodoList m.todos i p with
  | error e' => simp
  | ok l' => simp

theorem markCompleted_ok_shape (m : TodoManager) (i : Nat) (m' : TodoManager)
    (h : m.markCompleted i = .ok m') :
    ∃ l', markCompletedList m.todos i = .ok l' ∧ m' = TodoManager.make l' m.nextId := by
  unfold TodoManager.markCompleted at h
  cases hl : markCompletedList m.todos i with
  | error e => rw [hl] at h; exact absurd h (by simp)
  | ok l' =>
    rw [hl] at h
    simp only [Except.ok.injEq] at h
    exact ⟨l', rfl, h.symm⟩

theorem markCompleted_error_iff (m : TodoManager) (i : Nat) (e : String) :
    m.markCompleted i = .error e ↔ markCompletedList m.todos i = .error e := by
  unfold TodoManager.markCompleted
  cases hl : markCompletedList m.todos i with
  | error e' => simp
  | ok l' => simp

theorem removeTodo_ok_shape (m : TodoManager) (i : Nat) (m' : TodoManager)
    (h : m.removeTodo i = .ok m') :
    ∃ r, removeTodoList m.todos i = some r ∧
      m' = TodoManager.make (consolidateIds r)
        (if 0 < (consolidateIds r).length then maxId (consolidateIds r) + 1 else 1) := by
  unfold TodoManager.removeTodo at h
  cases hl : removeTodoList m.todos i with
  | none => rw [hl] at h; exact absurd h (by simp)
  | some r =>
    rw [hl] at h
    simp only [Except.ok.injEq] at h
    exact ⟨r, rfl, h.symm⟩

theorem removeTodo_error_iff (m : TodoManager) (i : Nat) :
    m.removeTodo i = .error "Todo not found" ↔ removeTodoList m.todos i = none := by
  unfold TodoManager.removeTodo
  cases hl : removeTodoList m.todos i with
  | none => simp
  | some r => simp

theorem applyOp_dense (m : TodoManager) (op : Op) (h : DenseIds m.todos) :
    DenseIds (applyOp m op).todos := by
  cases op with
  | add t d => exact make_dense _ _
  | update i p =>
    simp only [applyOp]
    cases hu : m.updateTodo i p with
    | error e => exact h
    | ok m' =>
      obtain ⟨l', _, hm'⟩ := updateTodo_ok_shape m i p m' hu
      rw [hm']
      exact make_dense _ _
  | complete i =>
    simp only [applyOp]
    cases hu : m.markCompleted i with
    | error e => exact h
    | ok m' =>
      obtain ⟨l', _, hm'⟩ := markCompleted_ok_shape m i m' hu
      rw [hm']
      exact make_dense _ _
  | remove i =>
    simp only [applyOp]
    cases hu : m.removeTodo i with
    | error e => exact h
    | ok m' =>
      obtain ⟨r, _, hm'⟩ := removeTodo_ok_shape m i m' hu
      rw [hm']
      exact make_dense _ _

theorem runOps_dense (ops : List Op) (m : TodoManager) (h : DenseIds m.todos) :
    DenseIds (runOps m ops).todos := by
  induction ops generalizing m with
  | nil => exact h
  | cons op rest ih =>
    show DenseIds (runOps (applyOp m op) rest).todos
    exact ih (applyOp m op) (applyOp_dense m op h)


theorem idsFrom_get? (s n k : Nat) :
    (idsFrom s n).get? k = if k < n then some (s + k) else none := by
  induction n generalizing s k with
  | zero => simp [idsFrom]
  | succ m ih =>
    cases k with
    | zero => simp [idsFrom]
    | succ k' =>
      show (idsFrom (s + 1) m).get? k' = _
      rw [ih (s + 1) k']
      by_cases hk : k' < m
      · rw [if_pos hk, if_pos (by omega)]
        congr 1
        omega
      · rw [if_neg hk, if_neg (by omega)]

theorem dense_get?_id (l : List Todo) (h : DenseIds l) (k : Nat) (t : Todo)
    (ht : l.get? k = some t) : t.id = k + 1 := by
  have hmap : (l.map Todo.id).get? k = some t.id := by
    rw [List.get?_map, ht]
    rfl
  rw [h, idsFrom_get?] at hmap
  by_cases hk : k < l.length
  · rw [if_pos hk] at hmap
    injection hmap with h'
    omega
  · rw [if_neg hk] at hmap
    exact absurd hmap (by simp)

theorem consolidate_get? (l : List Todo) (k : Nat) :
    (consolidateIds l).get? k =
      (l.get? k).map (fun t => Todo.mk (k + 1) t.title t.description t.completed) := by
  show (consolidateFrom 0 l).get? k = _
  rw [consolidateFrom_get?]
  simp [Nat.zero_add]

theorem removeTodo_ok_parts (m : TodoManager) (i : Nat) (m' : TodoManager)
    (h : m.removeTodo i = .ok m') :
    ∃ r, removeTodoList m.todos i = some r
      ∧ m'.todos = consolidateIds r
      ∧ m'.todos.length = r.length
      ∧ m'.nextId = (if m'.todos.length = 0 then 1 else maxId m'.todos + 1)
      ∧ m'.todos.length + 1 ≤ m'.nextId := by
  obtain ⟨r, hrem, hm'⟩ := removeTodo_ok_shape m i m' h
  subst hm'
  have htodos :
      (TodoManager.make (consolidateIds r)
        (if 0 < (consolidateIds r).length then maxId (consolidateIds r) + 1 else 1)).todos
        = consolidateIds r := by
    show consolidateIds (consolidateIds r) = consolidateIds r
    exact dense_consolidate_eq_self (consolidateIds r)
      (by unfold DenseIds consolidateIds; rw [consolidateFrom_map_id, consolidateFrom_length])
  refine ⟨r, hrem, htodos, by rw [htodos, consolidateIds_length], ?_, ?_⟩
  · by_cases hr : 0 < (consolidateIds r).length
    · rw [htodos]
      show (if 0 < (consolidateIds r).length then maxId (consolidateIds r) + 1 else 1) = _
      rw [if_pos hr, if_neg (by omega)]
    · rw [htodos]
      show (if 0 < (consolidateIds r).length then maxId (consolidateIds r) + 1 else 1) = _
      rw [if_neg hr, if_pos (by omega)]
  · by_cases hr : 0 < (consolidateIds r).length
    · have hmax : maxId (consolidateIds r) = r.length :=
        maxId_consolidate r (by rw [consolidateIds_length] at hr; exact hr)
      rw [htodos]
      show (consolidateIds r).length + 1 ≤
        (if 0 < (consolidateIds r).length then maxId (consolidateIds r) + 1 else 1)
      rw [if_pos hr, hmax, consolidateIds_length]
    · rw [htodos]
      show (consolidateIds r).length + 1 ≤
        (if 0 < (consolidateIds r).length then maxId (consolidateIds r) + 1 else 1)
      rw [if_neg hr]
      omega

/-- C1: for every collection reachable by any sequence of engine operations
(create, add, update, complete, remove), after each operation the ids of the
records read in sequence order are exactly `1, 2, ..., N` where `N` is the
collection's size — every record's id equals its position index + 1.  (The
quantification over `ops` covers every prefix, hence the state after each
operation.) -/
theorem dense_id_invariant (seed : List Todo) (n : Nat) (ops : List Op) :
    DenseIds (runOps (TodoManager.make seed n) ops).todos :=
  runOps_dense ops (TodoManager.make seed n) (make_dense seed n)

/-- C2 counterexample: on the reachable collection obtained by `add "a"` from
the empty collection (size 1, `nextId = 2`), a successful
`update 1 {}` yields a collection with size 1 but `nextId = 1 < 1 + 1`:
the invariant `nextId >= N + 1` does not hold after every operation. -/
theorem nextId_invariant_counterexample :
    ¬ ((runOps (TodoManager.makeDefault []) [Op.add "a" none, Op.update 1 TodoPatch.empty]).todos.length + 1
        ≤ (runOps (TodoManager.makeDefault []) [Op.add "a" none, Op.update 1 TodoPatch.empty]).nextId) := by
  decide

/-- C2 amended: on a collection satisfying `nextId >= N + 1`, the invariant is
preserved by add (which advances `nextId` by exactly 1), by complete (which
preserves `nextId`), and by remove (which recomputes `nextId` as
`max(remaining id) + 1`, or 1 if now empty); but a successful update resets
`nextId` to the constructor default 1, so `nextId >= N + 1` can fail after an
update. -/
theorem nextId_invariant_amended (m : TodoManager) (t : String) (d : Option String)
    (i : Nat) (p : TodoPatch) (hm : m.todos.length + 1 ≤ m.nextId) :
    ((m.addTodo t d).nextId = m.nextId + 1
      ∧ (m.addTodo t d).todos.length + 1 ≤ (m.addTodo t d).nextId)
  ∧ (∀ m', m.markCompleted i = .ok m' →
      m'.nextId = m.nextId ∧ m'.todos.length + 1 ≤ m'.nextId)
  ∧ (∀ m', m.removeTodo i = .ok m' →
      m'.nextId = (if m'.todos.length = 0 then 1 else maxId m'.todos + 1)
      ∧ m'.todos.length + 1 ≤ m'.nextId)
  ∧ (∀ m', m.updateTodo i p = .ok m' → m'.nextId = 1) := by
  refine ⟨⟨addTodo_nextId m t d, ?_⟩, ?_, ?_, ?_⟩
  · rw [addTodo_nextId, addTodo_length]
    omega
  · intro m' h
    obtain ⟨l', hl, hm'⟩ := markCompleted_ok_shape m i m' h
    have hlen : l'.length = m.todos.length := (markCompletedList_ok_spec m.todos i l' hl).1
    subst hm'
    refine ⟨rfl, ?_⟩
    show (consolidateFrom 0 l').length + 1 ≤ m.nextId
    rw [consolidateFrom_length, hlen]
    exact hm
  · intro m' h
    obtain ⟨r, _, _, _, hnext, hinv⟩ := removeTodo_ok_parts m i m' h
    exact ⟨hnext, hinv⟩
  · intro m' h
    obtain ⟨l', _, hm'⟩ := updateTodo_ok_shape m i p m' h
    subst hm'
    rfl

/-- C2 witness: the amended invariant theorem applied to the concrete
collection `{todos: [{id: 1, title: "a"}], nextId: 2}`: adding a record
advances `nextId` to 3. -/
theorem nextId_invariant_amended_witness :
    ((TodoManager.mk [Todo.mk 1 "a" none false] 2).addTodo "b" none).nextId = 2 + 1 :=
  (nextId_invariant_amended (TodoManager.mk [Todo.mk 1 "a" none false] 2) "b" none 1
    TodoPatch.empty (by decide)).1.1

/-- C3 counterexample: a successful update on a collection with `nextId = 2`
returns a collection with `nextId = 1`: `nextId` is not unchanged. -/
theorem update_frame_counterexample :
    (((TodoManager.makeDefault []).addTodo "a" none).updateTodo 1 TodoPatch.empty)
        = Except.ok (TodoManager.mk [Todo.mk 1 "a" none false] 1)
      ∧ ((TodoManager.makeDefault []).addTodo "a" none).nextId = 2 := by
  decide

/-- C3 amended: a successful update leaves every record's id and the record
count unchanged (no renumbering), but the returned collection's `nextId` is
the constructor default 1 (the code omits the `nextId` argument), so `nextId`
is unchanged only when it was already 1. -/
theorem update_frame (todos : List Todo) (n id : Nat) (p : TodoPatch) (m' : TodoManager)
    (h : (TodoManager.make todos n).updateTodo id p = .ok m') :
    m'.todos.map Todo.id = (TodoManager.make todos n).todos.map Todo.id
  ∧ m'.todos.length = (TodoManager.make todos n).todos.length
  ∧ m'.nextId = 1 := by
  obtain ⟨l', hl, hm'⟩ := updateTodo_ok_shape (TodoManager.make todos n) id p m' h
  have hmap : l'.map Todo.id = (TodoManager.make todos n).todos.map Todo.id :=
    updateTodoList_map_id (TodoManager.make todos n).todos id p l' hl
  have hlen : l'.length = (TodoManager.make todos n).todos.length :=
    (updateTodoList_ok_spec (TodoManager.make todos n).todos id p l' hl).1
  have hdense : DenseIds l' := by
    unfold DenseIds
    rw [hmap, hlen]
    exact make_dense todos n
  subst hm'
  have htodos : (TodoManager.makeDefault l').todos = l' :=
    dense_consolidate_eq_self l' hdense
  refine ⟨?_, ?_, rfl⟩
  · rw [htodos, hmap]
  · rw [htodos, hlen]

/-- C3 witness: the frame theorem applied to the concrete collection built
from a single record (stored id 1 after consolidation) and `nextId = 7`:
the ids of the updated collection are unchanged. -/
theorem update_frame_witness :
    (TodoManager.mk [Todo.mk 1 "a" (some "d") false] 1).todos.map Todo.id
      = (TodoManager.make [Todo.mk 9 "a" (some "d") false] 7).todos.map Todo.id :=
  (update_frame [Todo.mk 9 "a" (some "d") false] 7 1 TodoPatch.empty
    (TodoManager.mk [Todo.mk 1 "a" (some "d") false] 1) (by decide)).1

/-- C4 counterexample: the patch type `Omit<Partial<Todo>, 'id'>` admits a
`completed` field, and the spread merge applies it: `update 1 {completed: true}`
on a pending record flips its completed flag — completed IS settable through
update. -/
theorem update_completed_counterexample :
    ((TodoManager.makeDefault []).addTodo "a" none).todos.map Todo.completed = [false]
  ∧ ((TodoManager.makeDefault []).addTodo "a" none).updateTodo 1
        (TodoPatch.mk none none (some true))
      = Except.ok (TodoManager.mk [Todo.mk 1 "a" none true] 1) := by
  decide

/-- C4 amended: update returns `NotFound` exactly when no record has the given
id; when a record has it, update succeeds, the matched record's id is
unchanged, each of title, description and completed is overwritten when
supplied in the patch and retained when absent (completed, like title and
description, CAN be changed through update), and every other record is
unchanged. -/
theorem update_spec (todos : List Todo) (n id : Nat) (p : TodoPatch) :
    ((TodoManager.make todos n).updateTodo id p = .error "Todo not found"
        ↔ ∀ t ∈ (TodoManager.make todos n).todos, t.id ≠ id)
  ∧ ((∃ t ∈ (TodoManager.make todos n).todos, t.id = id) →
        ∃ m', (TodoManager.make todos n).updateTodo id p = .ok m')
  ∧ ∀ m', (TodoManager.make todos n).updateTodo id p = .ok m' →
      ∃ j t, (TodoManager.make todos n).todos.get? j = some t ∧ t.id = id
        ∧ m'.todos.get? j = some (Todo.mk t.id (p.title.getD t.title)
            (p.description.getD t.description) (p.completed.getD t.completed))
        ∧ ∀ k, k ≠ j → m'.todos.get? k = (TodoManager.make todos n).todos.get? k := by
  refine ⟨?_, ?_, ?_⟩
  · rw [updateTodo_error_iff]
    exact updateTodoList_notFound_iff (TodoManager.make todos n).todos id p
  · intro hmatch
    obtain ⟨l', hl⟩ := updateTodoList_ok_of_match (TodoManager.make todos n).todos id p hmatch
    refine ⟨TodoManager.makeDefault l', ?_⟩
    unfold TodoManager.updateTodo
    rw [hl]
  · intro m' h
    obtain ⟨l', hl, hm'⟩ := updateTodo_ok_shape (TodoManager.make todos n) id p m' h
    obtain ⟨hlen, j, t, hget, hid, hget', hframe⟩ :=
      updateTodoList_ok_spec (TodoManager.make todos n).todos id p l' hl
    have hdense : DenseIds l' := by
      unfold DenseIds
      rw [updateTodoList_map_id (TodoManager.make todos n).todos id p l' hl, hlen]
      exact make_dense todos n
    subst hm'
    have htodos : (TodoManager.makeDefault l').todos = l' :=
      dense_consolidate_eq_self l' hdense
    refine ⟨j, t, hget, hid, ?_, ?_⟩
    · rw [htodos]
      exact hget'
    · intro k hk
      rw [htodos]
      exact hframe k hk

/-- C5: complete returns `NotFound` exactly when no record has the given id,
`AlreadyCompleted` exactly when the matching record's flag is already true (an
error, not a no-op — the prior value is untouched since the engine returns no
collection on error), succeeds exactly on a pending match, and on success
returns a collection identical except that record's completed flag set true,
with the count and `nextId` preserved and no renumbering. -/
theorem complete_spec (todos : List Todo) (n id : Nat) :
    ((TodoManager.make todos n).markCompleted id = .error "Todo not found"
        ↔ ∀ t ∈ (TodoManager.make todos n).todos, t.id ≠ id)
  ∧ ((TodoManager.make todos n).markCompleted id = .error "Todo already completed"
        ↔ ∃ t ∈ (TodoManager.make todos n).todos, t.id = id ∧ t.completed = true)
  ∧ ((∃ t ∈ (TodoManager.make todos n).todos, t.id = id ∧ t.completed = false) →
        ∃ m', (TodoManager.make todos n).markCompleted id = .ok m')
  ∧ ∀ m', (TodoManager.make todos n).markCompleted id = .ok m' →
      m'.nextId = (TodoManager.make todos n).nextId
      ∧ m'.todos.length = (TodoManager.make todos n).todos.length
      ∧ ∃ j t, (TodoManager.make todos n).todos.get? j = some t ∧ t.id = id
          ∧ t.completed = false
          ∧ m'.todos.get? j = some (Todo.mk t.id t.title t.description true)
          ∧ ∀ k, k ≠ j → m'.todos.get? k = (TodoManager.make todos n).todos.get? k := by
  have hnd : ((TodoManager.make todos n).todos.map Todo.id).Nodup := by
    rw [make_todos_map_id]
    exact idsFrom_nodup 1 todos.length
  refine ⟨?_, ?_, ?_, ?_⟩
  · rw [markCompleted_error_iff]
    exact markCompletedList_notFound_iff (TodoManager.make todos n).todos id
  · rw [markCompleted_error_iff]
    constructor
    · exact markCompletedList_already_of (TodoManager.make todos n).todos id
    · exact markCompletedList_already_of_match (TodoManager.make todos n).todos id hnd
  · intro hmatch
    obtain ⟨l', hl⟩ := markCompletedList_ok_of_pending (TodoManager.make todos n).todos id
      hnd hmatch
    refine ⟨TodoManager.make l' (TodoManager.make todos n).nextId, ?_⟩
    unfold TodoManager.markCompleted
    rw [hl]
  · intro m' h
    obtain ⟨l', hl, hm'⟩ := markCompleted_ok_shape (TodoManager.make todos n) id m' h
    obtain ⟨hlen, j, t, hget, hid, hcomp, hget', hframe⟩ :=
      markCompletedList_ok_spec (TodoManager.make todos n).todos id l' hl
    have hdense : DenseIds l' := by
      unfold DenseIds
      rw [markCompletedList_map_id (TodoManager.make todos n).todos id l' hl, hlen]
      exact make_dense todos n
    subst hm'
    have htodos : (TodoManager.make l' (TodoManager.make todos n).nextId).todos = l' :=
      dense_consolidate_eq_self l' hdense
    refine ⟨rfl, ?_, j, t, hget, hid, hcomp, ?_, ?_⟩
    · rw [htodos, hlen]
    · rw [htodos]
      exact hget'
    · intro k hk
      rw [htodos]
      exact hframe k hk

/-- C6: remove returns `NotFound` exactly when no record has the given id;
when a record has it, remove succeeds, and the new collection has that record
removed, every earlier record unchanged, every subsequent record shifted one
position left with its id decreased by exactly one (no reordering), and
`nextId` recomputed as `max(remaining ids) + 1`, or 1 if the collection is now
empty. -/
theorem remove_spec (todos : List Todo) (n id : Nat) :
    ((TodoManager.make todos n).removeTodo id = .error "Todo not found"
        ↔ ∀ t ∈ (TodoManager.make todos n).todos, t.id ≠ id)
  ∧ ((∃ t ∈ (TodoManager.make todos n).todos, t.id = id) →
        ∃ m', (TodoManager.make todos n).removeTodo id = .ok m')
  ∧ ∀ m', (TodoManager.make todos n).removeTodo id = .ok m' →
      m'.todos.length + 1 = (TodoManager.make todos n).todos.length
      ∧ m'.nextId = (if m'.todos.length = 0 then 1 else maxId m'.todos + 1)
      ∧ ∃ j, ((TodoManager.make todos n).todos.get? j).map Todo.id = some id
          ∧ (∀ k, k < j → m'.todos.get? k = (TodoManager.make todos n).todos.get? k)
          ∧ ∀ k, j ≤ k → m'.todos.get? k =
              ((TodoManager.make todos n).todos.get? (k + 1)).map
                (fun u => Todo.mk (u.id - 1) u.title u.description u.completed) := by
  have hLdense : DenseIds (TodoManager.make todos n).todos := make_dense todos n
  refine ⟨?_, ?_, ?_⟩
  · rw [removeTodo_error_iff]
    exact removeTodoList_none_iff (TodoManager.make todos n).todos id
  · intro hmatch
    cases hrem : removeTodoList (TodoManager.make todos n).todos id with
    | none =>
      obtain ⟨t, ht, hid⟩ := hmatch
      exact absurd hid (((removeTodoList_none_iff _ id).mp hrem) t ht)
    | some r =>
      refine ⟨TodoManager.make (consolidateIds r)
        (if 0 < (consolidateIds r).length then maxId (consolidateIds r) + 1 else 1), ?_⟩
      unfold TodoManager.removeTodo
      rw [hrem]
  · intro m' h
    obtain ⟨r, hrem, htodos, hlen, hnext, _⟩ :=
      removeTodo_ok_parts (TodoManager.make todos n) id m' h
    obtain ⟨j, hjid, hrlen, hrget⟩ :=
      removeTodoList_some_spec (TodoManager.make todos n).todos id r hrem
    refine ⟨by rw [hlen]; exact hrlen, hnext, j, hjid, ?_, ?_⟩
    · intro k hk
      have hm'k : m'.todos.get? k =
          (r.get? k).map (fun t => Todo.mk (k + 1) t.title t.description t.completed) := by
        rw [htodos, consolidate_get?]
      rw [hm'k, hrget k, if_pos hk]
      cases hLk : (TodoManager.make todos n).todos.get? k with
      | none => rfl
      | some u =>
        have : u.id = k + 1 := dense_get?_id _ hLdense k u hLk
        simp only [Option.map_some']
        rw [todo_eta_id u (k + 1) this]
    · intro k hk
      have hm'k : m'.todos.get? k =
          (r.get? k).map (fun t => Todo.mk (k + 1) t.title t.description t.completed) := by
        rw [htodos, consolidate_get?]
      rw [hm'k, hrget k, if_neg (by omega)]
      cases hLk : (TodoManager.make todos n).todos.get? (k + 1) with
      | none => rfl
      | some u =>
        have hu : u.id = k + 2 := dense_get?_id _ hLdense (k + 1) u hLk
        simp only [Option.map_some']
        have : u.id - 1 = k + 1 := by omega
        rw [this]

/-- C7 counterexample: on the reachable collection obtained by `add "a"` then
`update 1 {}` (which resets `nextId` to 1), a further `add "b"` appends a
record stored with id 2 — not with id equal to the pre-add `nextId`, which was
1. -/
theorem add_id_counterexample :
    (runOps (TodoManager.makeDefault []) [Op.add "a" none, Op.update 1 TodoPatch.empty]).nextId = 1
  ∧ (runOps (TodoManager.makeDefault [])
        [Op.add "a" none, Op.update 1 TodoPatch.empty, Op.add "b" none]).todos.get? 1
      = some (Todo.mk 2 "b" none false) := by
  decide

/-- C7 amended: add never fails; it appends a record with the given title and
description and `completed = false` at the end, leaving all earlier records
unchanged; the stored id of the appended record is the previous size + 1 (its
position), which equals the pre-add `nextId` whenever `nextId = size + 1`; the
collection's `nextId` is incremented by exactly 1; and two adds in succession
with no intervening removal assign strictly increasing stored ids with no gap
(previous size + 1, then previous size + 2). -/
theorem add_spec (todos : List Todo) (n : Nat) (t : String) (d : Option String)
    (t2 : String) (d2 : Option String) :
    ((TodoManager.make todos n).addTodo t d).todos.length
        = (TodoManager.make todos n).todos.length + 1
  ∧ (∀ k, k < (TodoManager.make todos n).todos.length →
      ((TodoManager.make todos n).addTodo t d).todos.get? k
        = (TodoManager.make todos n).todos.get? k)
  ∧ ((TodoManager.make todos n).addTodo t d).todos.get? (TodoManager.make todos n).todos.length
      = some (Todo.mk ((TodoManager.make todos n).todos.length + 1) t d false)
  ∧ ((TodoManager.make todos n).addTodo t d).nextId = n + 1
  ∧ (n = (TodoManager.make todos n).todos.length + 1 →
      (((TodoManager.make todos n).addTodo t d).todos.get?
          (TodoManager.make todos n).todos.length).map Todo.id = some n)
  ∧ (((TodoManager.make todos n).addTodo t d).addTodo t2 d2).todos.get?
        ((TodoManager.make todos n).todos.length + 1)
      = some (Todo.mk ((TodoManager.make todos n).todos.length + 2) t2 d2 false) := by
  have hL := addTodo_todos (TodoManager.make todos n) (make_dense todos n) t d
  have hlen1 : ((TodoManager.make todos n).addTodo t d).todos.length
      = (TodoManager.make todos n).todos.length + 1 := by
    rw [hL]
    simp
  have hL2 := addTodo_todos ((TodoManager.make todos n).addTodo t d)
    (by rw [TodoManager.addTodo]; exact make_dense _ _) t2 d2
  refine ⟨hlen1, ?_, ?_, rfl, ?_, ?_⟩
  · intro k hk
    rw [hL, List.get?_append hk]
  · rw [hL, List.get?_concat_length]
  · intro hn
    rw [hL, List.get?_concat_length]
    simp only [Option.map_some']
    exact (congrArg some hn).symm
  · rw [hL2, show (TodoManager.make todos n).todos.length + 1
        = ((TodoManager.make todos n).addTodo t d).todos.length from hlen1.symm,
      List.get?_concat_length, hlen1]

/-- C7 witness: the amended add theorem applied to the concrete empty
collection with `nextId = 1`: since `nextId = size + 1` there, the appended
record's stored id equals that `nextId`. -/
theorem add_spec_witness :
    (((TodoManager.make [] 1).addTodo "x" none).todos.get?
        (TodoManager.make [] 1).todos.length).map Todo.id = some 1 :=
  (add_spec [] 1 "x" none "y" none).2.2.2.2.1 (by decide)

/-- C9 (implicit): the record appended by add is stored with id equal to the
previous size + 1 (its position), because construction re-derives every id
positionally; when the collection's `nextId` differs from size + 1, the stored
id is therefore NOT `nextId`. -/
theorem add_positional (todos : List Todo) (n : Nat) (t : String) (d : Option String) :
    ((TodoManager.make todos n).addTodo t d).todos.get? (TodoManager.make todos n).todos.length
        = some (Todo.mk ((TodoManager.make todos n).todos.length + 1) t d false)
  ∧ (n ≠ (TodoManager.make todos n).todos.length + 1 →
      (((TodoManager.make todos n).addTodo t d).todos.get?
          (TodoManager.make todos n).todos.length).map Todo.id ≠ some n) := by
  have hL := addTodo_todos (TodoManager.make todos n) (make_dense todos n) t d
  constructor
  · rw [hL, List.get?_concat_length]
  · intro hn
    rw [hL, List.get?_concat_length]
    simp only [Option.map_some']
    intro hcon
    injection hcon with h'
    exact hn h'.symm

/-- C9 witness: the positional-id theorem applied to a concrete collection
with `nextId = 5` and one record: the appended record is stored with id 2,
not 5. -/
theorem add_positional_witness :
    ((((TodoManager.make [Todo.mk 1 "a" none false] 5).addTodo "b" none).todos.get?
        (TodoManager.make [Todo.mk 1 "a" none false] 5).todos.length).map Todo.id) ≠ some 5 :=
  (add_positional [Todo.mk 1 "a" none false] 5 "b" none).2 (by decide)

theorem consolidateIds_map_title (l : List Todo) :
    (consolidateIds l).map Todo.title = l.map Todo.title :=
  consolidateFrom_map_title 0 l

theorem consolidateIds_map_description (l : List Todo) :
    (consolidateIds l).map Todo.description = l.map Todo.description :=
  consolidateFrom_map_description 0 l

theorem consolidateIds_map_completed (l : List Todo) :
    (consolidateIds l).map Todo.completed = l.map Todo.completed :=
  consolidateFrom_map_completed 0 l

theorem consolidateIds_map_id (l : List Todo) :
    (consolidateIds l).map Todo.id = idsFrom 1 l.length :=
  consolidateFrom_map_id 0 l

/-- C8 counterexample: a record whose description is the empty string (as the
engine permits: `add "a" ""`) is stored as `""` by `toSqlite` and loaded back
as an absent description by `fromSqlite` (`row.description || undefined`), so
the round-tripped record does not carry the same description value. -/
theorem roundtrip_counterexample :
    ((TodoManager.makeDefault []).addTodo "a" (some "")).todos.map Todo.description = [some ""]
  ∧ (fromSqlite (toSqlite [] ((TodoManager.makeDefault []).addTodo "a" (some "")))).todos.map
        Todo.description = [none] := by
  decide

/-- C8 amended: saving all records of a collection into an empty store and
loading them back reproduces the records in order with the same titles and the
same completion flags, with ids re-derived positionally (`1..N`); descriptions
are preserved except that an empty-string description (and an absent one) is
restored as absent — `toSqlite` stores `description || ""` and `fromSqlite`
loads `description || undefined`. -/
theorem roundtrip (todos : List Todo) (n : Nat) :
    (fromSqlite (toSqlite [] (TodoManager.make todos n))).todos.length
        = (TodoManager.make todos n).todos.length
  ∧ (fromSqlite (toSqlite [] (TodoManager.make todos n))).todos.map Todo.title
        = (TodoManager.make todos n).todos.map Todo.title
  ∧ (fromSqlite (toSqlite [] (TodoManager.make todos n))).todos.map Todo.completed
        = (TodoManager.make todos n).todos.map Todo.completed
  ∧ (fromSqlite (toSqlite [] (TodoManager.make todos n))).todos.map Todo.description
        = (TodoManager.make todos n).todos.map (fun t => normDesc t.description)
  ∧ (fromSqlite (toSqlite [] (TodoManager.make todos n))).todos.map Todo.id
        = idsFrom 1 (TodoManager.make todos n).todos.length := by
  have hload : (fromSqlite (toSqlite [] (TodoManager.make todos n))).todos
      = consolidateIds ((TodoManager.make todos n).todos.map
          (fun t => Todo.mk t.id t.title (normDesc t.description) t.completed)) := by
    rw [show fromSqlite (toSqlite [] (TodoManager.make todos n))
        = TodoManager.makeDefault ((toSqlite [] (TodoManager.make todos n)).map rowToTodo)
      from rfl]
    rw [toSqlite_make]
    show consolidateIds (((TodoManager.make todos n).todos.map toRow).map rowToTodo) = _
    rw [List.map_map]
    simp only [Function.comp_def, rowToTodo_toRow]
  refine ⟨?_, ?_, ?_, ?_, ?_⟩
  · rw [hload, consolidateIds_length, List.length_map]
  · rw [hload, consolidateIds_map_title, List.map_map]
    rfl
  · rw [hload, consolidateIds_map_completed, List.map_map]
    rfl
  · rw [hload, consolidateIds_map_description, List.map_map]
    rfl
  · rw [hload, consolidateIds_map_id, List.length_map]

/-- C10 (implicit): a collection constructed without an explicit `nextId`
argument gets the default `nextId = 1` regardless of the records supplied; in
particular a collection loaded from persistence (`fromSqlite` calls
`new TodoManager(todos)`) has `nextId = 1`, which is less than `N + 1`
whenever `N > 0` records were loaded. -/
theorem default_nextId (todos : List Todo) (db : List Row) :
    (TodoManager.makeDefault todos).nextId = 1
  ∧ (fromSqlite db).nextId = 1
  ∧ (0 < db.length → (fromSqlite db).nextId < (fromSqlite db).todos.length + 1) := by
  refine ⟨rfl, rfl, ?_⟩
  intro h
  show (1 : Nat) < (consolidateIds (db.map rowToTodo)).length + 1
  rw [consolidateIds_length, List.length_map]
  omega

/-- C10 witness: a store holding one row loads into a collection with one
record and `nextId = 1 < 2`. -/
theorem default_nextId_witness :
    (fromSqlite [Row.mk 1 "a" "" 0]).nextId < (fromSqlite [Row.mk 1 "a" "" 0]).todos.length + 1 :=
  (default_nextId [] [Row.mk 1 "a" "" 0]).2.2 (by decide)
